import Mathlib

/-!
Verification development for the stock-dashboard data core (`app.py`).

The Python source is shallowly embedded:
* pandas float cells are modelled by `FVal` (`nan` / `±inf` / exact rational),
  since the special values `NaN`, `+inf`, `-inf` drive the interesting edge
  cases of the indicator pipeline;
* ticker strings are modelled as `List Char` (all tickers involved are ASCII);
* DataFrames are lists of rows; rolling-window columns are per-index `Option`
  valued functions (pandas emits `NaN` during the warm-up period);
* code that can raise is modelled with `Option`/`Except`.
-/

/- Batteries seals the `Rat` arithmetic operations behind `@[irreducible]`;
re-open them locally so that concrete witnesses evaluate with `decide`. -/
attribute [local semireducible] Rat.add Rat.sub Rat.mul Rat.inv Rat.ofScientific

/-- A pandas/numpy float cell: `NaN`, `+inf`, `-inf`, or a finite value
(modelled exactly as a rational, ignoring float rounding). -/
inductive FVal where
  | nan
  | pinf
  | ninf
  | num (q : ℚ)
deriving DecidableEq, Repr

/-- `str.strip()`: drop leading and trailing whitespace. -/
def pyStrip (l : List Char) : List Char :=
  ((l.dropWhile Char.isWhitespace).reverse.dropWhile Char.isWhitespace).reverse

/-- `str.upper()`, restricted to the ASCII tickers this app handles. -/
def pyUpper (l : List Char) : List Char := l.map Char.toUpper

/-- `clean_ticker`: `ticker.strip().upper()` (empty input stays empty). -/
def clean_ticker (ticker : List Char) : List Char := pyUpper (pyStrip ticker)

/-- `str.isdigit()`: nonempty and all digits. -/
def pyIsDigit (l : List Char) : Bool := !l.isEmpty && l.all Char.isDigit

/-- `str.endswith(suf)`. -/
def endsWith (l suf : List Char) : Bool := decide (suf <:+ l)

/-- `is_korean_stock`: the cleaned ticker ends with `.KS` or `.KQ`. -/
def is_korean_stock (ticker : List Char) : Bool :=
  let t := clean_ticker ticker
  endsWith t (".KS".toList) || endsWith t (".KQ".toList)

/-- Python 3 `round` to an integer: round-half-to-even (banker's rounding),
expressed through the floor and the fractional part. -/
def pyRound (q : ℚ) : ℤ :=
  if q - ⌊q⌋ < 1 / 2 then ⌊q⌋
  else if 1 / 2 < q - ⌊q⌋ then ⌊q⌋ + 1
  else if ⌊q⌋ % 2 = 0 then ⌊q⌋ else ⌊q⌋ + 1

/-- `round_price_if_korean(price, ticker)`.  For a Korean ticker the price is
rounded with `round(price / 50) * 50`; Python `round()` raises `ValueError`
on NaN and `OverflowError` on infinities, modelled as `Except.error`.
Non-Korean tickers pass the value through unchanged. -/
def round_price_if_korean (price : FVal) (ticker : List Char) : Except String FVal :=
  if is_korean_stock ticker then
    match price with
    | FVal.num q => Except.ok (FVal.num (pyRound (q / 50) * 50))
    | FVal.nan => Except.error "ValueError: cannot convert float NaN to integer"
    | _ => Except.error "OverflowError: cannot convert float infinity to integer"
  else Except.ok price

/-- Abstract form of the string `format_price` builds: the `"-"` sentinel, a
`"{n:,}원"` rendering of an integer, or a `"${x:,.2f}"` rendering of a float
(finite or infinite — Python formats infinities without raising). -/
inductive Rendered where
  | dash
  | won (n : ℤ)
  | dollar (x : FVal)
deriving DecidableEq, Repr

/-- `format_price(price, ticker)`: `pd.isna` input renders the sentinel `"-"`;
a Korean ticker renders `int(round(price / 50) * 50)` (so `round` can still
raise on an infinite input); otherwise the value renders as dollars. -/
def format_price (price : FVal) (ticker : List Char) : Except String Rendered :=
  match price with
  | FVal.nan => Except.ok Rendered.dash
  | FVal.num q =>
      if is_korean_stock ticker then Except.ok (Rendered.won (pyRound (q / 50) * 50))
      else Except.ok (Rendered.dollar (FVal.num q))
  | p =>
      if is_korean_stock ticker then
        Except.error "OverflowError: cannot convert float infinity to integer"
      else Except.ok (Rendered.dollar p)

/-- The discrete market-risk states returned by `analyze_market_risk`
(`UNKNOWN` is produced by the guard for non-numeric/NaN input, which sits
outside the finite-rational domain modelled here). -/
inductive RiskState where
  | RISK_ON
  | CAUTION
  | RISK_OFF
  | NEUTRAL
  | UNKNOWN
deriving DecidableEq, Repr

/-- `analyze_market_risk(current_spread, prev_spread_1week_ago)` on finite
numeric inputs (the `float()`/`pd.isna` guard that returns `UNKNOWN` for
non-numeric input is upstream of this logic). -/
def analyze_market_risk (current_spread prev_spread_1week_ago : ℚ) : RiskState :=
  if 4 < current_spread then RiskState.RISK_ON
  else
    let change := current_spread - prev_spread_1week_ago
    if current_spread < 3 then
      if 1 / 5 ≤ change then RiskState.CAUTION else RiskState.RISK_OFF
    else
      if 3 / 20 ≤ change then RiskState.CAUTION else RiskState.NEUTRAL

/-- One canonical OHLCV row (`openP` is the `Open` column; `open` is a Lean
keyword). Values are finite rationals: the adapters deliver numeric rows. -/
structure Bar where
  openP : ℚ
  high : ℚ
  low : ℚ
  close : ℚ
  volume : ℚ
deriving DecidableEq, Repr

/-- The rolling window pandas uses at row `t` for window size `n`
(`min_periods = n`, the default): rows `t-n+1 .. t`, available only once `t`
has seen `n` rows; otherwise the cell is NaN (`none`). -/
def windowAt (n : Nat) (xs : List ℚ) (t : Nat) : Option (List ℚ) :=
  if n ≤ t + 1 ∧ t < xs.length then some ((xs.take (t + 1)).drop (t + 1 - n)) else none

/-- `series.rolling(n).mean()` at row `t`. -/
def rollingMeanAt (n : Nat) (xs : List ℚ) (t : Nat) : Option ℚ :=
  (windowAt n xs t).map (fun w => w.sum / (n : ℚ))

/-- `series.rolling(n).sum()` at row `t`. -/
def rollingSumAt (n : Nat) (xs : List ℚ) (t : Nat) : Option ℚ :=
  (windowAt n xs t).map (fun w => w.sum)

/-- The `Close` column. -/
def closes (bars : List Bar) : List ℚ := bars.map (fun b => b.close)

/-- `delta.where(delta > 0, 0)` where `delta = close.diff()`: the diff is NaN
at row 0 and `NaN > 0` is `False`, so row 0 becomes `0`; later rows carry
`max(close[t] - close[t-1], 0)`. -/
def gains (closes : List ℚ) : List ℚ :=
  (List.range closes.length).map (fun t =>
    if t = 0 then 0 else max (closes.getD t 0 - closes.getD (t - 1) 0) 0)

/-- `-delta.where(delta < 0, 0)`: row 0 is `0` (NaN comparison), later rows
carry `max(close[t-1] - close[t], 0)`. -/
def losses (closes : List ℚ) : List ℚ :=
  (List.range closes.length).map (fun t =>
    if t = 0 then 0 else max (closes.getD (t - 1) 0 - closes.getD t 0) 0)

/-- The `RSI` column at row `t`:
`rs = gain.rolling(14).mean() / loss.rolling(14).mean()`,
`RSI = 100 - 100 / (1 + rs)`, with IEEE division semantics spelled out:
* an incomplete window gives NaN, which propagates;
* `loss = 0, gain = 0` gives `rs = 0/0 = NaN`, so RSI is NaN;
* `loss = 0, gain > 0` gives `rs = +inf`, and `100 - 100/(1 + inf) = 100`;
* otherwise both means are finite and `loss > 0`, so RSI is finite. -/
def rsiAt (closes : List ℚ) (t : Nat) : FVal :=
  match rollingMeanAt 14 (gains closes) t, rollingMeanAt 14 (losses closes) t with
  | some g, some l =>
      if l = 0 then if g = 0 then FVal.nan else FVal.num 100
      else FVal.num (100 - 100 / (1 + g / l))
  | _, _ => FVal.nan

/-- The typical-price series `tp = (High + Low + Close) / 3`. -/
def tps (bars : List Bar) : List ℚ := bars.map (fun b => (b.high + b.low + b.close) / 3)

/-- The `Volume` column after `replace(0, nan).fillna(0)` — the identity on
numeric volumes (a zero goes to NaN and straight back to zero). -/
def vols (bars : List Bar) : List ℚ := bars.map (fun b => b.volume)

/-- `np.where(tp > tp.shift(1), mf, 0)` with `mf = tp * vol`: positive money
flow. Row 0 compares against NaN, which is `False`, hence `0`. -/
def posFlow (bars : List Bar) : List ℚ :=
  (List.range bars.length).map (fun t =>
    if t = 0 then 0
    else if (tps bars).getD (t - 1) 0 < (tps bars).getD t 0 then
      (tps bars).getD t 0 * (vols bars).getD t 0
    else 0)

/-- `np.where(tp < tp.shift(1), mf, 0)`: negative money flow (row 0 is `0`). -/
def negFlow (bars : List Bar) : List ℚ :=
  (List.range bars.length).map (fun t =>
    if t = 0 then 0
    else if (tps bars).getD t 0 < (tps bars).getD (t - 1) 0 then
      (tps bars).getD t 0 * (vols bars).getD t 0
    else 0)

/-- The `MFI` column at row `t` (`mfi_period = 10`).  If the total (cleaned)
volume is zero the whole column is the scalar `50`.  Otherwise
`mr = pmf / nmf.replace(0, nan)` — a zero 10-bar negative flow is converted
to NaN, so the ratio and the cell are NaN regardless of `pmf`; with IEEE
semantics made explicit, `1 + mr = 0` gives `100 - 100/(+0.0) = -inf`. -/
def mfiAt (bars : List Bar) (t : Nat) : FVal :=
  if (vols bars).sum = 0 then FVal.num 50
  else
    match rollingSumAt 10 (posFlow bars) t, rollingSumAt 10 (negFlow bars) t with
    | some p, some n =>
        if n = 0 then FVal.nan
        else if 1 + p / n = 0 then FVal.ninf
        else FVal.num (100 - 100 / (1 + p / n))
    | _, _ => FVal.nan

/-- `MA5` / `MA10` / `MA20` and `BB_Mid` are rolling means of `Close`. -/
def maAt (n : Nat) (bars : List Bar) (t : Nat) : Option ℚ :=
  rollingMeanAt n (closes bars) t

/-- The trailing-`n` sample variance pandas' `rolling(n).std()` takes the
square root of (`ddof = 1`, so the divisor is `n - 1`). -/
def sampleVar (w : List ℚ) : ℚ :=
  (w.map (fun x => (x - w.sum / (w.length : ℚ)) ^ 2)).sum / ((w.length : ℚ) - 1)

/-- `Close.rolling(20).std()` at row `t` (as a real number: the square root
leaves the rationals). -/
noncomputable def rollingStdAt (n : Nat) (xs : List ℚ) (t : Nat) : Option ℝ :=
  (windowAt n xs t).map (fun w => Real.sqrt ((sampleVar w : ℚ) : ℝ))

/-- `BB_Mid = Close.rolling(20).mean()`. -/
def bbMidAt (bars : List Bar) (t : Nat) : Option ℚ := maAt 20 bars t

/-- `BB_Up = BB_Mid + std * 2`. -/
noncomputable def bbUpAt (bars : List Bar) (t : Nat) : Option ℝ :=
  match bbMidAt bars t, rollingStdAt 20 (closes bars) t with
  | some m, some s => some ((m : ℝ) + s * 2)
  | _, _ => none

/-- `BB_Low = BB_Mid - std * 2`. -/
noncomputable def bbLowAt (bars : List Bar) (t : Nat) : Option ℝ :=
  match bbMidAt bars t, rollingStdAt 20 (closes bars) t with
  | some m, some s => some ((m : ℝ) - s * 2)
  | _, _ => none

/-- `Prev_Range = High.shift(1) - Low.shift(1)` (NaN on row 0). -/
def prevRangeAt (bars : List Bar) (t : Nat) : Option ℚ :=
  if 0 < t ∧ t < bars.length then
    some ((bars.map (fun b => b.high)).getD (t - 1) 0 - (bars.map (fun b => b.low)).getD (t - 1) 0)
  else none

/-- `Vol_Breakout_Price = Open + Prev_Range * k` with `k = 0.5`
(NaN on row 0, where the previous range is NaN). -/
def volBreakoutAt (bars : List Bar) (t : Nat) : Option ℚ :=
  (prevRangeAt bars t).map (fun r => (bars.map (fun b => b.openP)).getD t 0 + r * (1 / 2))

/-- One row of the augmented table: the original bar plus the nine derived
columns computed by `get_stock_data`. -/
structure AugRow where
  bar : Bar
  ma5 : Option ℚ
  ma10 : Option ℚ
  ma20 : Option ℚ
  bbMid : Option ℚ
  bbUp : Option ℝ
  bbLow : Option ℝ
  rsi : FVal
  mfi : FVal
  prevRange : Option ℚ
  volBreakout : Option ℚ

/-- The indicator-computation block of `get_stock_data`: append the derived
columns to the frame (pure; row count is preserved). -/
noncomputable def augment (bars : List Bar) : List AugRow :=
  (List.range bars.length).map (fun t =>
    { bar := bars.getD t ⟨0, 0, 0, 0, 0⟩
      ma5 := maAt 5 bars t
      ma10 := maAt 10 bars t
      ma20 := maAt 20 bars t
      bbMid := bbMidAt bars t
      bbUp := bbUpAt bars t
      bbLow := bbLowAt bars t
      rsi := rsiAt (closes bars) t
      mfi := mfiAt bars t
      prevRange := prevRangeAt bars t
      volBreakout := volBreakoutAt bars t })

/-- The three upstream providers `get_stock_data` dispatches to, abstracted
as functions from (symbol, requested history length in calendar days) to
either rows (`some`) or a raised exception (`none`).  `fdr` is called either
with an `INVESTING:`-prefixed symbol (bond-yield/futures branch) or with the
plain symbol (FX branch). -/
structure Adapters where
  pykrx : List Char → Nat → Option (List Bar)
  fdr : List Char → Nat → Option (List Bar)
  yf : List Char → Nat → Option (List Bar)

theorem length_pyStrip_le (l : List Char) : (pyStrip l).length ≤ l.length := by
  unfold pyStrip
  calc ((l.dropWhile Char.isWhitespace).reverse.dropWhile Char.isWhitespace).reverse.length
      = ((l.dropWhile Char.isWhitespace).reverse.dropWhile Char.isWhitespace).length := by
        rw [List.length_reverse]
    _ ≤ (l.dropWhile Char.isWhitespace).reverse.length :=
        List.Sublist.length_le (List.dropWhile_sublist _)
    _ = (l.dropWhile Char.isWhitespace).length := by rw [List.length_reverse]
    _ ≤ l.length := List.Sublist.length_le (List.dropWhile_sublist _)

theorem length_clean_ticker_le (l : List Char) : (clean_ticker l).length ≤ l.length := by
  unfold clean_ticker pyUpper
  rw [List.length_map]
  exact length_pyStrip_le l

theorem length_takeWhile_lt_of_exists {p : Char → Bool} {l : List Char}
    (h : ∃ x ∈ l, p x = false) : (l.takeWhile p).length < l.length := by
  induction l with
  | nil => obtain ⟨x, hx, _⟩ := h; cases hx
  | cons a l ih =>
      by_cases ha : p a = true
      · rw [List.takeWhile_cons_of_pos ha]
        obtain ⟨x, hx, hpx⟩ := h
        rcases List.mem_cons.mp hx with rfl | hxl
        · rw [ha] at hpx; cases hpx
        · simpa using ih ⟨x, hxl, hpx⟩
      · rw [List.takeWhile_cons_of_neg (by simpa using ha)]
        simp

theorem mem_of_endsWith {t suf : List Char} (h : endsWith t suf = true)
    {c : Char} (hc : c ∈ suf) : c ∈ t :=
  (of_decide_eq_true h).subset hc

/-- The raw-data half of `get_stock_data` (`app.py` lines 94–154): clean the
ticker (the source reassigns `ticker = clean_ticker(ticker)` once at the
top; here the cleaned form is written out in each branch), dispatch on its
shape, and fetch.  Every branch requests
`days + 100` calendar days of history (the warm-up buffer).  Branch order as
in the source: 6-digit code → `pykrx` with the `Open > 0` guard; fixed bond
allow-list → `fdr` with the `INVESTING:` prefix; fixed FX allow-list → plain
`fdr`; a `.KS`/`.KQ` suffix over a digit code → recursive call on the part
before the first `.`; anything else → `yf`. -/
def rawFetch (A : Adapters) (ticker : List Char) (days : Nat) : Option (List Bar) :=
  if pyIsDigit (clean_ticker ticker) && (clean_ticker ticker).length == 6 then
    (A.pykrx (clean_ticker ticker) (days + 100)).map
      (fun df => df.filter (fun b => decide (0 < b.openP)))
  else if clean_ticker ticker == "KR10YT=RR".toList ||
      clean_ticker ticker == "JP10YT=XX".toList ||
      clean_ticker ticker == "FKS200".toList then
    A.fdr ("INVESTING:".toList ++ clean_ticker ticker) (days + 100)
  else if clean_ticker ticker == "USD/KRW".toList ||
      clean_ticker ticker == "JPY/KRW".toList then
    A.fdr (clean_ticker ticker) (days + 100)
  else if h : (endsWith (clean_ticker ticker) (".KS".toList) ||
        endsWith (clean_ticker ticker) (".KQ".toList))
      && pyIsDigit ((clean_ticker ticker).takeWhile (fun c => c != '.')) then
    rawFetch A ((clean_ticker ticker).takeWhile (fun c => c != '.')) days
  else
    A.yf (clean_ticker ticker) (days + 100)
termination_by ticker.length
decreasing_by
  have hsuf : endsWith (clean_ticker ticker) (".KS".toList) = true ∨
      endsWith (clean_ticker ticker) (".KQ".toList) = true := by
    have := (Bool.and_eq_true _ _).mp h |>.1
    exact Bool.or_eq_true _ _ |>.mp this
  have hdot : '.' ∈ clean_ticker ticker := by
    rcases hsuf with h1 | h1
    · exact mem_of_endsWith h1 (by decide)
    · exact mem_of_endsWith h1 (by decide)
  have hlt : ((clean_ticker ticker).takeWhile (fun c => c != '.')).length <
      (clean_ticker ticker).length :=
    length_takeWhile_lt_of_exists ⟨'.', hdot, by decide⟩
  exact lt_of_lt_of_le hlt (length_clean_ticker_le ticker)

/-- `df.iloc[-days:]`: the last `days` rows — except that Python's `-0` is
`0`, so `days = 0` slices the *whole* frame. -/
def tailSlice {α : Type} (days : Nat) (l : List α) : List α :=
  if days = 0 then l else l.drop (l.length - days)

/-- `get_stock_data(ticker, days)` (`app.py` lines 92–208).  The whole body
is wrapped in `try/except → empty DataFrame`, so a raised adapter exception
(`none`) becomes `[]`; an empty fetched frame returns `[]` before the
indicator block; otherwise the augmented frame is trimmed to the last
`days` rows.  The source's recursive `.KS`/`.KQ` call returns the recursive
result unchanged, which is exactly `post` applied to the recursively fetched
rows — here the recursion lives in `rawFetch` and the post-processing is
applied once. -/
noncomputable def get_stock_data (A : Adapters) (ticker : List Char) (days : Nat) :
    List AugRow :=
  match rawFetch A ticker days with
  | none => []
  | some df => if df.isEmpty then [] else tailSlice days (augment df)

/-- A 15-bar strictly increasing close series: zero losses, positive gains. -/
def incrCloses : List ℚ := (List.range 15).map (fun t => (t : ℚ))

/-- A 25-bar constant close series (`close = 100` everywhere). -/
def constCloses : List ℚ := List.replicate 25 100

/-- A price that is an integer multiple of the 50-won tick. -/
def IsTickMultiple (x : ℚ) : Prop := ∃ k : ℤ, x = (k : ℚ) * 50

/-- Ten bars whose typical price dips below zero while volume flows: the
10-bar positive money flow comes out negative (`-1`) against a positive
negative flow (`2`). -/
def negTpBars : List Bar :=
  [⟨1, 2, 2, 2, 1⟩, ⟨1, 1, 1, 1, 2⟩, ⟨1, -5, -5, -5, 0⟩, ⟨1, -1, -1, -1, 1⟩,
   ⟨1, -1, -1, -1, 0⟩, ⟨1, -1, -1, -1, 0⟩, ⟨1, -1, -1, -1, 0⟩, ⟨1, -1, -1, -1, 0⟩,
   ⟨1, -1, -1, -1, 0⟩, ⟨1, -1, -1, -1, 0⟩]

/-- Ten bars with strictly rising prices and unit volume: the negative money
flow sums to zero while total volume does not. -/
def risingBars : List Bar :=
  (List.range 10).map (fun t => ⟨1, (t : ℚ), (t : ℚ), (t : ℚ), 1⟩)

/-- Five rising bars with zero volume everywhere (a volume-less instrument
such as a yield series). -/
def zeroVolBars : List Bar :=
  (List.range 5).map (fun t => ⟨1, (t : ℚ), (t : ℚ), (t : ℚ), 0⟩)

/-- Twenty identical bars: the Bollinger window is full from row 19 on and
the standard deviation there is √0. -/
def flatBars : List Bar := List.replicate 20 ⟨100, 100, 100, 100, 1000⟩

/-- Adapters that either raise (`none`) or deliver zero rows. -/
def failingAdapters : Adapters :=
  ⟨fun _ _ => none, fun _ _ => none, fun _ _ => some []⟩

/-- Two concrete rows with positive opens. -/
def demoRows : List Bar := [⟨1, 1, 1, 1, 1⟩, ⟨2, 2, 1, 2, 1⟩]

/-- Adapters whose local-exchange source always returns `demoRows`. -/
def fullAdapters : Adapters :=
  ⟨fun _ _ => some demoRows, fun _ _ => none, fun _ _ => none⟩

/-! ### Character-level facts used for ticker normalization -/

theorem isDigit_toUpper (c : Char) (h : c.isDigit = true) : c.toUpper = c := by
  have hv : c.val ≤ 57 := by simp [Char.isDigit] at h; exact h.2
  have hv' : c.toNat ≤ 57 := hv
  unfold Char.toUpper
  rw [if_neg]
  intro hlo
  omega

theorem isDigit_not_ws (c : Char) (h : c.isDigit = true) : c.isWhitespace = false := by
  by_contra hws
  rw [Bool.not_eq_false] at hws
  simp [Char.isWhitespace] at hws
  rcases hws with ((rfl | rfl) | rfl) | rfl <;> exact absurd h (by decide)

theorem dropWhile_eq_self_of_false {p : Char → Bool} {l : List Char}
    (h : ∀ c ∈ l, p c = false) : l.dropWhile p = l := by
  cases l with
  | nil => rfl
  | cons a l =>
      rw [List.dropWhile_cons_of_neg]
      rw [h a (List.mem_cons_self a l)]
      simp

theorem pyStrip_eq_self {l : List Char} (h : ∀ c ∈ l, c.isWhitespace = false) :
    pyStrip l = l := by
  unfold pyStrip
  rw [dropWhile_eq_self_of_false h]
  rw [dropWhile_eq_self_of_false (fun c hc => h c (List.mem_reverse.mp hc))]
  exact List.reverse_reverse l

theorem pyUpper_eq_self {l : List Char} (h : ∀ c ∈ l, c.toUpper = c) :
    pyUpper l = l :=
  (List.map_congr_left h).trans (List.map_id l)

theorem clean_ticker_eq_self {l : List Char}
    (h : ∀ c ∈ l, c.isWhitespace = false ∧ c.toUpper = c) : clean_ticker l = l := by
  unfold clean_ticker
  rw [pyStrip_eq_self (fun c hc => (h c hc).1)]
  exact pyUpper_eq_self (fun c hc => (h c hc).2)

/-- Digit-only strings (the 6-digit domestic codes) are fixed by
`clean_ticker`. -/
theorem clean_ticker_digits {s : List Char} (hd : pyIsDigit s = true) :
    clean_ticker s = s := by
  have hall : ∀ c ∈ s, c.isDigit = true := by
    have := (Bool.and_eq_true _ _).mp hd |>.2
    exact fun c hc => List.all_eq_true.mp this c hc
  exact clean_ticker_eq_self fun c hc =>
    ⟨isDigit_not_ws c (hall c hc), isDigit_toUpper c (hall c hc)⟩

/-! ### Banker's rounding is a nearest-integer rounding -/

theorem pyRound_abs_le (x : ℚ) : |(pyRound x : ℚ) - x| ≤ 1 / 2 := by
  unfold pyRound
  have h0 : ((⌊x⌋ : ℚ)) ≤ x := Int.floor_le x
  have h1 : x < ⌊x⌋ + 1 := Int.lt_floor_add_one x
  split_ifs with ha hb hc
  · rw [abs_le]; constructor <;> linarith
  · rw [abs_le]; push_cast; constructor <;> linarith
  · rw [abs_le]; constructor <;> linarith
  · rw [abs_le]; push_cast; constructor <;> linarith

/-- Claim C2: on finite numeric inputs, the risk classifier returns `RISK_ON`
whenever `current > 4.0` regardless of the trend term; otherwise, with
`change = current - weekAgo`: for `current < 3.0` it returns `CAUTION` iff
`change ≥ 0.2` and `RISK_OFF` below that; for `3.0 ≤ current ≤ 4.0` it
returns `CAUTION` iff `change ≥ 0.15` and `NEUTRAL` below that. -/
theorem analyze_market_risk_spec (current weekAgo : ℚ) :
    (4 < current → analyze_market_risk current weekAgo = RiskState.RISK_ON) ∧
    (current ≤ 4 → current < 3 →
      ((1 / 5 ≤ current - weekAgo →
          analyze_market_risk current weekAgo = RiskState.CAUTION) ∧
       (current - weekAgo < 1 / 5 →
          analyze_market_risk current weekAgo = RiskState.RISK_OFF))) ∧
    (3 ≤ current → current ≤ 4 →
      ((3 / 20 ≤ current - weekAgo →
          analyze_market_risk current weekAgo = RiskState.CAUTION) ∧
       (current - weekAgo < 3 / 20 →
          analyze_market_risk current weekAgo = RiskState.NEUTRAL))) := by
  simp only [analyze_market_risk]
  refine ⟨fun h => by rw [if_pos h], fun h4 h3 => ?_, fun h3 h4 => ?_⟩
  · rw [if_neg (not_lt.mpr h4), if_pos h3]
    exact ⟨fun hc => by rw [if_pos hc], fun hc => by rw [if_neg (not_le.mpr hc)]⟩
  · rw [if_neg (not_lt.mpr h4), if_neg (not_lt.mpr h3)]
    exact ⟨fun hc => by rw [if_pos hc], fun hc => by rw [if_neg (not_le.mpr hc)]⟩

/-- Witness for C2: one concrete instance of each of the three regimes. -/
theorem analyze_market_risk_spec_witness :
    analyze_market_risk (9 / 2) 3 = RiskState.RISK_ON ∧
    analyze_market_risk (5 / 2) (11 / 5) = RiskState.CAUTION ∧
    analyze_market_risk (7 / 2) (7 / 2) = RiskState.NEUTRAL :=
  ⟨(analyze_market_risk_spec (9 / 2) 3).1 (by norm_num),
   ((analyze_market_risk_spec (5 / 2) (11 / 5)).2.1 (by norm_num) (by norm_num)).1
     (by norm_num),
   ((analyze_market_risk_spec (7 / 2) (7 / 2)).2.2 (by norm_num) (by norm_num)).2
     (by norm_num)⟩

/-- Claim C6: for every finite price, the tick-rounding helper returns
`round(price/50)*50` — an integer multiple of 50 within 25 of the input —
for Korean-suffixed tickers, and passes every other ticker's price through
unchanged. -/
theorem round_price_if_korean_spec (q : ℚ) (ticker : List Char) :
    (is_korean_stock ticker = true →
      round_price_if_korean (FVal.num q) ticker =
        Except.ok (FVal.num ((pyRound (q / 50) : ℚ) * 50)) ∧
      IsTickMultiple ((pyRound (q / 50) : ℚ) * 50) ∧
      |((pyRound (q / 50) : ℚ) * 50) - q| ≤ 25) ∧
    (is_korean_stock ticker = false →
      round_price_if_korean (FVal.num q) ticker = Except.ok (FVal.num q)) := by
  constructor
  · intro h
    refine ⟨?_, ⟨pyRound (q / 50), rfl⟩, ?_⟩
    · unfold round_price_if_korean
      rw [h]
      simp
    · have he : (pyRound (q / 50) : ℚ) * 50 - q = ((pyRound (q / 50) : ℚ) - q / 50) * 50 := by
        ring
      rw [he, abs_mul, abs_of_pos (show (0 : ℚ) < 50 by norm_num)]
      have := mul_le_mul_of_nonneg_right (pyRound_abs_le (q / 50))
        (show (0 : ℚ) ≤ 50 by norm_num)
      linarith
  · intro h
    unfold round_price_if_korean
    rw [h]
    simp

/-- Witness for C6: the Samsung ticker gets tick-rounded, a US ticker does
not. -/
theorem round_price_if_korean_spec_witness :
    round_price_if_korean (FVal.num 12345) ("005930.KS".toList) =
      Except.ok (FVal.num ((pyRound ((12345 : ℚ) / 50) : ℚ) * 50)) ∧
    IsTickMultiple ((pyRound ((12345 : ℚ) / 50) : ℚ) * 50) ∧
    round_price_if_korean (FVal.num 12345) ("TSLA".toList) =
      Except.ok (FVal.num 12345) :=
  ⟨((round_price_if_korean_spec 12345 ("005930.KS".toList)).1 (by decide)).1,
   ((round_price_if_korean_spec 12345 ("005930.KS".toList)).1 (by decide)).2.1,
   (round_price_if_korean_spec 12345 ("TSLA".toList)).2 (by decide)⟩

/-- Claim C10: on a Korean-suffixed ticker, `round_price_if_korean` applied
to a NaN price raises (Python `round` of NaN), while `format_price` returns
the `"-"` sentinel for the same input — so callers must NaN-check before
rounding. -/
theorem nan_rounding_contrast (ticker : List Char)
    (h : is_korean_stock ticker = true) :
    round_price_if_korean FVal.nan ticker =
      Except.error "ValueError: cannot convert float NaN to integer" ∧
    format_price FVal.nan ticker = Except.ok Rendered.dash := by
  constructor
  · unfold round_price_if_korean
    rw [h]
    rfl
  · rfl

/-- Witness for C10 at the Samsung `.KS` ticker. -/
theorem nan_rounding_contrast_witness :
    round_price_if_korean FVal.nan ("005930.KS".toList) =
      Except.error "ValueError: cannot convert float NaN to integer" ∧
    format_price FVal.nan ("005930.KS".toList) = Except.ok Rendered.dash :=
  nan_rounding_contrast ("005930.KS".toList) (by decide)

/-! ### RSI / MFI edge cases -/

/-- Counterexample to C3 as stated: on a strictly rising 15-bar series the
trailing-14 loss mean at bar 13 is zero, yet RSI is *not* the undefined
marker — pandas' `gain/0 = +inf` clamps it to exactly 100. -/
theorem rsi_undefined_counterexample :
    rollingMeanAt 14 (losses incrCloses) 13 = some 0 ∧
    rsiAt incrCloses 13 = FVal.num 100 ∧ rsiAt incrCloses 13 ≠ FVal.nan := by
  refine ⟨by decide, by decide, by decide⟩

/-- Claim C3 as amended: when the trailing-14 loss mean is zero, RSI is
undefined only if the gain mean is also zero; with a positive gain mean it
is clamped to 100.  On the 25-bar constant-close series both means are zero
wherever defined, so RSI is undefined at every bar (and nothing raises). -/
theorem rsi_undefined_amended :
    (∀ (cs : List ℚ) (t : Nat) (g : ℚ),
      rollingMeanAt 14 (gains cs) t = some g →
      rollingMeanAt 14 (losses cs) t = some 0 →
      rsiAt cs t = if g = 0 then FVal.nan else FVal.num 100) ∧
    (∀ t, t < 25 → rsiAt constCloses t = FVal.nan) := by
  constructor
  · intro cs t g hg hl
    unfold rsiAt
    rw [hg, hl]
    simp
  · decide

/-- Witness for the amended C3: the rising series hits the clamp case, the
constant series the undefined case. -/
theorem rsi_undefined_amended_witness :
    rsiAt incrCloses 13 = (if (13 / 14 : ℚ) = 0 then FVal.nan else FVal.num 100) ∧
    rsiAt constCloses 24 = FVal.nan :=
  ⟨rsi_undefined_amended.1 incrCloses 13 (13 / 14) (by decide) (by decide),
   rsi_undefined_amended.2 24 (by decide)⟩

/-- Claim C4: with a zero total volume the MFI column is the constant
neutral 50; with volume present, a bar whose trailing-10 negative money flow
sums to zero gets the undefined marker (the zero is replaced by NaN before
the ratio). -/
theorem mfi_special_cases (bars : List Bar) (t : Nat) :
    ((vols bars).sum = 0 → mfiAt bars t = FVal.num 50) ∧
    ((vols bars).sum ≠ 0 → rollingSumAt 10 (negFlow bars) t = some 0 →
      mfiAt bars t = FVal.nan) := by
  constructor
  · intro h
    unfold mfiAt
    rw [if_pos h]
  · intro h hn
    unfold mfiAt
    rw [if_neg h, hn]
    cases hp : rollingSumAt 10 (posFlow bars) t with
    | none => rfl
    | some p => simp

/-- Witness for C4: a zero-volume series pins MFI to 50; a rising unit-volume
series has zero negative flow and an undefined MFI. -/
theorem mfi_special_cases_witness :
    mfiAt zeroVolBars 2 = FVal.num 50 ∧ mfiAt risingBars 9 = FVal.nan :=
  ⟨(mfi_special_cases zeroVolBars 2).1 (by decide),
   (mfi_special_cases risingBars 9).2 (by decide) (by decide)⟩

/-! ### Oscillator range bounds -/

theorem windowAt_subset {n : Nat} {xs : List ℚ} {t : Nat} {w : List ℚ}
    (hw : windowAt n xs t = some w) : ∀ x ∈ w, x ∈ xs := by
  unfold windowAt at hw
  split_ifs at hw with h
  obtain rfl := Option.some.inj hw
  intro x hx
  exact (List.take_sublist _ _).subset ((List.drop_sublist _ _).subset hx)

theorem rollingSumAt_nonneg {n : Nat} {xs : List ℚ} {t : Nat} {s : ℚ}
    (hxs : ∀ x ∈ xs, 0 ≤ x) (hs : rollingSumAt n xs t = some s) : 0 ≤ s := by
  unfold rollingSumAt at hs
  cases hw : windowAt n xs t with
  | none => rw [hw] at hs; cases hs
  | some w =>
      rw [hw] at hs
      obtain rfl := Option.some.inj hs
      exact List.sum_nonneg fun x hx => hxs x (windowAt_subset hw x hx)

theorem rollingMeanAt_nonneg {n : Nat} {xs : List ℚ} {t : Nat} {m : ℚ}
    (hxs : ∀ x ∈ xs, 0 ≤ x) (hm : rollingMeanAt n xs t = some m) : 0 ≤ m := by
  unfold rollingMeanAt at hm
  cases hw : windowAt n xs t with
  | none => rw [hw] at hm; cases hm
  | some w =>
      rw [hw] at hm
      obtain rfl := Option.some.inj hm
      exact div_nonneg (List.sum_nonneg fun x hx => hxs x (windowAt_subset hw x hx))
        (Nat.cast_nonneg n)

theorem gains_nonneg (cs : List ℚ) : ∀ x ∈ gains cs, 0 ≤ x := by
  intro x hx
  unfold gains at hx
  obtain ⟨t, _, rfl⟩ := List.mem_map.mp hx
  split_ifs
  · exact le_refl 0
  · exact le_max_right _ _

theorem losses_nonneg (cs : List ℚ) : ∀ x ∈ losses cs, 0 ≤ x := by
  intro x hx
  unfold losses at hx
  obtain ⟨t, _, rfl⟩ := List.mem_map.mp hx
  split_ifs
  · exact le_refl 0
  · exact le_max_right _ _

theorem getD_nonneg {l : List ℚ} (h : ∀ x ∈ l, 0 ≤ x) (i : Nat) : 0 ≤ l.getD i 0 := by
  induction l generalizing i with
  | nil => simp
  | cons a l ih =>
      cases i with
      | zero => simpa using h a (List.mem_cons_self a l)
      | succ i => simpa using ih (fun x hx => h x (List.mem_cons_of_mem a hx)) i

/-- The nonnegative-bar hypothesis: prices and volume of every row are
nonnegative (true of real OHLCV data; yields can violate it). -/
def NonnegBars (bars : List Bar) : Prop :=
  ∀ b ∈ bars, 0 ≤ b.high ∧ 0 ≤ b.low ∧ 0 ≤ b.close ∧ 0 ≤ b.volume

theorem tps_nonneg {bars : List Bar} (h : NonnegBars bars) : ∀ x ∈ tps bars, 0 ≤ x := by
  intro x hx
  obtain ⟨b, hb, rfl⟩ := List.mem_map.mp hx
  have := h b hb
  have h3 : (0 : ℚ) ≤ 3 := by norm_num
  exact div_nonneg (by linarith [this.1, this.2.1, this.2.2.1]) h3

theorem vols_nonneg {bars : List Bar} (h : NonnegBars bars) : ∀ x ∈ vols bars, 0 ≤ x := by
  intro x hx
  obtain ⟨b, hb, rfl⟩ := List.mem_map.mp hx
  exact (h b hb).2.2.2

theorem posFlow_nonneg {bars : List Bar} (h : NonnegBars bars) :
    ∀ x ∈ posFlow bars, 0 ≤ x := by
  intro x hx
  unfold posFlow at hx
  obtain ⟨t, _, rfl⟩ := List.mem_map.mp hx
  split_ifs
  · exact le_refl 0
  · exact mul_nonneg (getD_nonneg (tps_nonneg h) t) (getD_nonneg (vols_nonneg h) t)
  · exact le_refl 0

theorem negFlow_nonneg {bars : List Bar} (h : NonnegBars bars) :
    ∀ x ∈ negFlow bars, 0 ≤ x := by
  intro x hx
  unfold negFlow at hx
  obtain ⟨t, _, rfl⟩ := List.mem_map.mp hx
  split_ifs
  · exact le_refl 0
  · exact mul_nonneg (getD_nonneg (tps_nonneg h) t) (getD_nonneg (vols_nonneg h) t)
  · exact le_refl 0

/-- The common `100 - 100/(1 + p/n)` formula stays within `[0, 100]` when
the numerator is nonnegative and the denominator positive. -/
theorem osc_formula_bounds {p n : ℚ} (hp : 0 ≤ p) (hn : 0 < n) :
    0 ≤ 100 - 100 / (1 + p / n) ∧ 100 - 100 / (1 + p / n) ≤ 100 := by
  have hr : 0 ≤ p / n := div_nonneg hp hn.le
  have h1 : (0 : ℚ) < 1 + p / n := by linarith
  constructor
  · have hle : 100 / (1 + p / n) ≤ 100 := by
      rw [div_le_iff₀ h1]
      nlinarith
    linarith
  · have hpos : 0 < 100 / (1 + p / n) := by positivity
    linarith

/-- Counterexample to C8 as stated: with a typical price that dips below
zero, the 10-bar MFI is defined (a plain number) yet equals −100. -/
theorem oscillator_range_counterexample :
    mfiAt negTpBars 9 = FVal.num (-100) ∧ ¬ ((0 : ℚ) ≤ -100) := by
  refine ⟨by decide, by decide⟩

/-- Claim C8 as amended: RSI is always within `[0, 100]` when defined (for
any input series); MFI is within `[0, 100]` when defined provided every
bar's prices and volume are nonnegative (negative typical prices can push a
defined MFI outside the range). -/
theorem oscillator_range_amended :
    (∀ (cs : List ℚ) (t : Nat),
      rsiAt cs t ≠ FVal.pinf ∧ rsiAt cs t ≠ FVal.ninf ∧
      ∀ q, rsiAt cs t = FVal.num q → 0 ≤ q ∧ q ≤ 100) ∧
    (∀ (bars : List Bar) (t : Nat), NonnegBars bars →
      mfiAt bars t ≠ FVal.pinf ∧ mfiAt bars t ≠ FVal.ninf ∧
      ∀ q, mfiAt bars t = FVal.num q → 0 ≤ q ∧ q ≤ 100) := by
  constructor
  · intro cs t
    unfold rsiAt
    cases hg : rollingMeanAt 14 (gains cs) t with
    | none => exact ⟨by simp, by simp, fun q hq => by simp at hq⟩
    | some g =>
        cases hl : rollingMeanAt 14 (losses cs) t with
        | none => exact ⟨by simp, by simp, fun q hq => by simp at hq⟩
        | some l =>
            have hg0 : 0 ≤ g := rollingMeanAt_nonneg (gains_nonneg cs) hg
            have hl0 : 0 ≤ l := rollingMeanAt_nonneg (losses_nonneg cs) hl
            dsimp only
            split_ifs with h1 h2
            · exact ⟨by simp, by simp, fun q hq => by simp at hq⟩
            · refine ⟨by simp, by simp, fun q hq => ?_⟩
              injection hq with h'
              subst h'
              norm_num
            · refine ⟨by simp, by simp, fun q hq => ?_⟩
              injection hq with h'
              subst h'
              exact osc_formula_bounds hg0 (lt_of_le_of_ne hl0 (Ne.symm h1))
  · intro bars t h
    unfold mfiAt
    split_ifs with hv
    · refine ⟨by simp, by simp, fun q hq => ?_⟩
      injection hq with h'
      subst h'
      norm_num
    · cases hp : rollingSumAt 10 (posFlow bars) t with
      | none => exact ⟨by simp, by simp, fun q hq => by simp at hq⟩
      | some p =>
          cases hn : rollingSumAt 10 (negFlow bars) t with
          | none => exact ⟨by simp, by simp, fun q hq => by simp at hq⟩
          | some n =>
              have hp0 : 0 ≤ p := rollingSumAt_nonneg (posFlow_nonneg h) hp
              have hn0 : 0 ≤ n := rollingSumAt_nonneg (negFlow_nonneg h) hn
              dsimp only
              split_ifs with h1 h2
              · exact ⟨by simp, by simp, fun q hq => by simp at hq⟩
              · exfalso
                have hnpos : 0 < n := lt_of_le_of_ne hn0 (Ne.symm h1)
                have hr : (0 : ℚ) ≤ p / n := div_nonneg hp0 hnpos.le
                linarith
              · refine ⟨by simp, by simp, fun q hq => ?_⟩
                injection hq with h'
                subst h'
                exact osc_formula_bounds hp0 (lt_of_le_of_ne hn0 (Ne.symm h1))

/-- Witness for the amended C8: concrete in-range values on nonnegative
series for both oscillators. -/
theorem oscillator_range_amended_witness :
    rsiAt incrCloses 13 = FVal.num 100 ∧ (0 : ℚ) ≤ 100 ∧ (100 : ℚ) ≤ 100 ∧
    mfiAt zeroVolBars 2 = FVal.num 50 ∧ (0 : ℚ) ≤ 50 ∧ (50 : ℚ) ≤ 100 := by
  have h1 := (oscillator_range_amended.1 incrCloses 13).2.2 100 (by decide)
  have h2 := (oscillator_range_amended.2 zeroVolBars 2
    (by unfold NonnegBars zeroVolBars; decide)).2.2 50 (by decide)
  exact ⟨by decide, h1.1, h1.2, by decide, h2.1, h2.2⟩

/-! ### Bollinger band ordering -/

/-- Claim C7: wherever the three Bollinger columns are all defined (on a
series with at least 20 bars), `BB_Low ≤ BB_Mid ≤ BB_Up` — the half-width
`std * 2` is a nonnegative real. -/
theorem bollinger_band_order (bars : List Bar) (t : Nat) (_h20 : 20 ≤ bars.length)
    (hu : (bbUpAt bars t).isSome = true) (hm : (bbMidAt bars t).isSome = true)
    (_hl : (bbLowAt bars t).isSome = true) :
    (bbLowAt bars t).getD 0 ≤ (((bbMidAt bars t).getD 0 : ℚ) : ℝ) ∧
    (((bbMidAt bars t).getD 0 : ℚ) : ℝ) ≤ (bbUpAt bars t).getD 0 := by
  cases hmid : bbMidAt bars t with
  | none => rw [hmid] at hm; cases hm
  | some m =>
      cases hstd : rollingStdAt 20 (closes bars) t with
      | none =>
          unfold bbUpAt at hu
          rw [hmid, hstd] at hu
          cases hu
      | some s =>
          have hs : 0 ≤ s := by
            unfold rollingStdAt at hstd
            cases hw : windowAt 20 (closes bars) t with
            | none => rw [hw] at hstd; cases hstd
            | some w =>
                rw [hw] at hstd
                obtain rfl := Option.some.inj hstd
                exact Real.sqrt_nonneg _
          have hup : bbUpAt bars t = some ((m : ℝ) + s * 2) := by
            unfold bbUpAt; rw [hmid, hstd]
          have hlow : bbLowAt bars t = some ((m : ℝ) - s * 2) := by
            unfold bbLowAt; rw [hmid, hstd]
          rw [hup, hlow]
          constructor
          · simp only [Option.getD_some]
            linarith
          · simp only [Option.getD_some]
            linarith

/-- Witness for C7 on the 20-bar flat series at row 19. -/
theorem bollinger_band_order_witness :
    (bbLowAt flatBars 19).getD 0 ≤ (((bbMidAt flatBars 19).getD 0 : ℚ) : ℝ) ∧
    (((bbMidAt flatBars 19).getD 0 : ℚ) : ℝ) ≤ (bbUpAt flatBars 19).getD 0 :=
  bollinger_band_order flatBars 19 (by decide)
    (by simp [bbUpAt, bbMidAt, maAt, rollingMeanAt, rollingStdAt, windowAt, closes,
      flatBars])
    (by simp [bbMidAt, maAt, rollingMeanAt, windowAt, closes, flatBars])
    (by simp [bbLowAt, bbMidAt, maAt, rollingMeanAt, rollingStdAt, windowAt, closes,
      flatBars])

/-! ### Router error handling and trimming -/

/-- If every adapter either raises or returns zero rows, so does the raw
fetch, whichever branch (including the recursive one) it takes. -/
theorem rawFetch_empty (A : Adapters)
    (hk : ∀ s n, A.pykrx s n = none ∨ A.pykrx s n = some [])
    (hf : ∀ s n, A.fdr s n = none ∨ A.fdr s n = some [])
    (hy : ∀ s n, A.yf s n = none ∨ A.yf s n = some []) :
    ∀ tk d, rawFetch A tk d = none ∨ rawFetch A tk d = some [] := by
  intro tk d
  induction tk, d using rawFetch.induct A with
  | case1 ticker days h =>
      rw [rawFetch.eq_def, if_pos h]
      rcases hk (clean_ticker ticker) (days + 100) with h' | h' <;> rw [h']
      · exact Or.inl rfl
      · exact Or.inr rfl
  | case2 ticker days h1 h2 =>
      rw [rawFetch.eq_def, if_neg h1, if_pos h2]
      exact hf _ _
  | case3 ticker days h1 h2 h3 =>
      rw [rawFetch.eq_def, if_neg h1, if_neg h2, if_pos h3]
      exact hf _ _
  | case4 ticker days h1 h2 h3 h4 ih =>
      rw [rawFetch.eq_def, if_neg h1, if_neg h2, if_neg h3, dif_pos h4]
      exact ih
  | case5 ticker days h1 h2 h3 h4 =>
      rw [rawFetch.eq_def, if_neg h1, if_neg h2, if_neg h3, dif_neg h4]
      exact hy _ _

/-- Claim C1: for every identifier and lookback, if the routed adapter
raises or yields zero rows, `get_stock_data` returns the empty frame rather
than propagating an exception, and the indicator block applied to an empty
frame is the empty frame. -/
theorem fetch_never_raises (A : Adapters) (ticker : List Char) (days : Nat)
    (hk : ∀ s n, A.pykrx s n = none ∨ A.pykrx s n = some [])
    (hf : ∀ s n, A.fdr s n = none ∨ A.fdr s n = some [])
    (hy : ∀ s n, A.yf s n = none ∨ A.yf s n = some []) :
    get_stock_data A ticker days = [] ∧ augment [] = [] := by
  constructor
  · unfold get_stock_data
    rcases rawFetch_empty A hk hf hy ticker days with h | h
    · rw [h]
    · rw [h]
      rfl
  · rfl

/-- Witness for C1: adapters that raise (or deliver nothing) produce the
empty frame on a concrete ticker. -/
theorem fetch_never_raises_witness :
    get_stock_data failingAdapters ("AAPL".toList) 30 = [] ∧ augment [] = [] :=
  fetch_never_raises failingAdapters ("AAPL".toList) 30
    (fun _ _ => Or.inl rfl) (fun _ _ => Or.inl rfl) (fun _ _ => Or.inr rfl)

/-- Branch-1 unfolding: a cleaned 6-digit code goes to the local-exchange
adapter with the zero-open guard. -/
theorem rawFetch_eq_pykrx (A : Adapters) (tk : List Char) (d : Nat)
    (h : (pyIsDigit (clean_ticker tk) && (clean_ticker tk).length == 6) = true) :
    rawFetch A tk d = (A.pykrx (clean_ticker tk) (d + 100)).map
      (fun df => df.filter (fun b => decide (0 < b.openP))) := by
  rw [rawFetch.eq_def, if_pos h]

/-- Branch-2 unfolding: the bond/futures allow-list goes to `fdr` with the
provider prefix. -/
theorem rawFetch_eq_fdr_prefixed (A : Adapters) (tk : List Char) (d : Nat)
    (h1 : ¬ (pyIsDigit (clean_ticker tk) && (clean_ticker tk).length == 6) = true)
    (h2 : (clean_ticker tk == "KR10YT=RR".toList ||
        clean_ticker tk == "JP10YT=XX".toList ||
        clean_ticker tk == "FKS200".toList) = true) :
    rawFetch A tk d = A.fdr ("INVESTING:".toList ++ clean_ticker tk) (d + 100) := by
  rw [rawFetch.eq_def, if_neg h1, if_pos h2]

/-- Branch-3 unfolding: the FX allow-list goes to plain `fdr`. -/
theorem rawFetch_eq_fdr_fx (A : Adapters) (tk : List Char) (d : Nat)
    (h1 : ¬ (pyIsDigit (clean_ticker tk) && (clean_ticker tk).length == 6) = true)
    (h2 : ¬ (clean_ticker tk == "KR10YT=RR".toList ||
        clean_ticker tk == "JP10YT=XX".toList ||
        clean_ticker tk == "FKS200".toList) = true)
    (h3 : (clean_ticker tk == "USD/KRW".toList ||
        clean_ticker tk == "JPY/KRW".toList) = true) :
    rawFetch A tk d = A.fdr (clean_ticker tk) (d + 100) := by
  rw [rawFetch.eq_def, if_neg h1, if_neg h2, if_pos h3]

/-- Branch-4 unfolding: a `.KS`/`.KQ`-suffixed digit code re-fetches the
part before the first dot. -/
theorem rawFetch_eq_recurse (A : Adapters) (tk : List Char) (d : Nat)
    (h1 : ¬ (pyIsDigit (clean_ticker tk) && (clean_ticker tk).length == 6) = true)
    (h2 : ¬ (clean_ticker tk == "KR10YT=RR".toList ||
        clean_ticker tk == "JP10YT=XX".toList ||
        clean_ticker tk == "FKS200".toList) = true)
    (h3 : ¬ (clean_ticker tk == "USD/KRW".toList ||
        clean_ticker tk == "JPY/KRW".toList) = true)
    (h4 : ((endsWith (clean_ticker tk) (".KS".toList) ||
        endsWith (clean_ticker tk) (".KQ".toList))
      && pyIsDigit ((clean_ticker tk).takeWhile (fun c => c != '.'))) = true) :
    rawFetch A tk d =
      rawFetch A ((clean_ticker tk).takeWhile (fun c => c != '.')) d := by
  rw [rawFetch.eq_def, if_neg h1, if_neg h2, if_neg h3, dif_pos h4]

/-- Branch-5 unfolding: everything else goes to the broad `yf` adapter. -/
theorem rawFetch_eq_yf (A : Adapters) (tk : List Char) (d : Nat)
    (h1 : ¬ (pyIsDigit (clean_ticker tk) && (clean_ticker tk).length == 6) = true)
    (h2 : ¬ (clean_ticker tk == "KR10YT=RR".toList ||
        clean_ticker tk == "JP10YT=XX".toList ||
        clean_ticker tk == "FKS200".toList) = true)
    (h3 : ¬ (clean_ticker tk == "USD/KRW".toList ||
        clean_ticker tk == "JPY/KRW".toList) = true)
    (h4 : ¬ ((endsWith (clean_ticker tk) (".KS".toList) ||
        endsWith (clean_ticker tk) (".KQ".toList))
      && pyIsDigit ((clean_ticker tk).takeWhile (fun c => c != '.'))) = true) :
    rawFetch A tk d = A.yf (clean_ticker tk) (d + 100) := by
  rw [rawFetch.eq_def, if_neg h1, if_neg h2, if_neg h3, dif_neg h4]

/-- The raw fetch consults the adapters only at the `days + 100` request
window: two adapter families that agree there fetch identically. -/
theorem rawFetch_congr (A A' : Adapters) (d : Nat)
    (hk : ∀ s, A.pykrx s (d + 100) = A'.pykrx s (d + 100))
    (hf : ∀ s, A.fdr s (d + 100) = A'.fdr s (d + 100))
    (hy : ∀ s, A.yf s (d + 100) = A'.yf s (d + 100)) :
    ∀ tk, rawFetch A tk d = rawFetch A' tk d := by
  have H : ∀ (tk2 : List Char) (d2 : Nat), d2 = d →
      rawFetch A tk2 d2 = rawFetch A' tk2 d2 := by
    intro tk2 d2
    induction tk2, d2 using rawFetch.induct A with
    | case1 ticker days h =>
        intro hd
        subst hd
        rw [rawFetch_eq_pykrx A ticker _ h, rawFetch_eq_pykrx A' ticker _ h, hk]
    | case2 ticker days h1 h2 =>
        intro hd
        subst hd
        rw [rawFetch_eq_fdr_prefixed A ticker _ h1 h2,
          rawFetch_eq_fdr_prefixed A' ticker _ h1 h2, hf]
    | case3 ticker days h1 h2 h3 =>
        intro hd
        subst hd
        rw [rawFetch_eq_fdr_fx A ticker _ h1 h2 h3,
          rawFetch_eq_fdr_fx A' ticker _ h1 h2 h3, hf]
    | case4 ticker days h1 h2 h3 h4 ih =>
        intro hd
        subst hd
        rw [rawFetch_eq_recurse A ticker _ h1 h2 h3 h4,
          rawFetch_eq_recurse A' ticker _ h1 h2 h3 h4]
        exact ih rfl
    | case5 ticker days h1 h2 h3 h4 =>
        intro hd
        subst hd
        rw [rawFetch_eq_yf A ticker _ h1 h2 h3 h4,
          rawFetch_eq_yf A' ticker _ h1 h2 h3 h4, hy]
  exact fun tk => H tk d rfl

/-- Counterexample to C9 as stated: at `days = 0` the slice `iloc[-0:]`
keeps the whole frame, so the result has 2 rows, more than `days`. -/
theorem fetch_trim_counterexample :
    (get_stock_data fullAdapters ("005930".toList) 0).length = 2 ∧ ¬ (2 ≤ 0) := by
  have hraw : rawFetch fullAdapters ("005930".toList) 0 = some demoRows := by
    rw [rawFetch.eq_def]
    decide
  have hget : get_stock_data fullAdapters ("005930".toList) 0 = augment demoRows := by
    unfold get_stock_data
    rw [hraw]
    rfl
  rw [hget]
  refine ⟨?_, by decide⟩
  simp [augment, demoRows]

/-- Claim C9 as amended: for every *positive* lookback, the returned frame
has at most `days` rows, and the fetch depends on the adapters only through
the `days + 100`-day request window. -/
theorem fetch_trim_amended (A A' : Adapters) (ticker : List Char) (days : Nat)
    (hdays : 1 ≤ days) :
    (get_stock_data A ticker days).length ≤ days ∧
    ((∀ s, A.pykrx s (days + 100) = A'.pykrx s (days + 100)) →
     (∀ s, A.fdr s (days + 100) = A'.fdr s (days + 100)) →
     (∀ s, A.yf s (days + 100) = A'.yf s (days + 100)) →
     get_stock_data A ticker days = get_stock_data A' ticker days) := by
  constructor
  · unfold get_stock_data
    cases h : rawFetch A ticker days with
    | none => simp
    | some df =>
        dsimp only
        by_cases hdf : df.isEmpty = true
        · rw [if_pos hdf]
          simp
        · rw [if_neg hdf]
          unfold tailSlice
          rw [if_neg (by omega : ¬ days = 0), List.length_drop]
          omega
  · intro h1 h2 h3
    unfold get_stock_data
    rw [rawFetch_congr A A' days h1 h2 h3 ticker]

/-- Witness for the amended C9 at a concrete ticker and a 30-day lookback. -/
theorem fetch_trim_amended_witness :
    (get_stock_data fullAdapters ("TSLA".toList) 30).length ≤ 30 ∧
    get_stock_data fullAdapters ("TSLA".toList) 30 =
      get_stock_data fullAdapters ("TSLA".toList) 30 :=
  ⟨(fetch_trim_amended fullAdapters fullAdapters ("TSLA".toList) 30 (by norm_num)).1,
   (fetch_trim_amended fullAdapters fullAdapters ("TSLA".toList) 30 (by norm_num)).2
     (fun _ => rfl) (fun _ => rfl) (fun _ => rfl)⟩

/-! ### Domestic-equity classification and suffix normalization -/

theorem takeWhile_append_stop {p : Char → Bool} {s rest : List Char} {c0 : Char}
    (hs : ∀ c ∈ s, p c = true) (hc0 : p c0 = false) :
    (s ++ c0 :: rest).takeWhile p = s := by
  induction s with
  | nil =>
      simp only [List.nil_append]
      exact List.takeWhile_cons_of_neg (by simp [hc0])
  | cons a s ih =>
      rw [List.cons_append, List.takeWhile_cons_of_pos (hs a (List.mem_cons_self a s)),
        ih (fun c hc => hs c (List.mem_cons_of_mem a hc))]

theorem digit_ne_dot {c : Char} (h : c.isDigit = true) : (c != '.') = true := by
  rcases eq_or_ne c '.' with rfl | hne
  · exact absurd h (by decide)
  · simp [hne]

theorem clean_ticker_digit_suffix {s suf : List Char} (hd : pyIsDigit s = true)
    (hsuf : suf = ".KS".toList ∨ suf = ".KQ".toList) :
    clean_ticker (s ++ suf) = s ++ suf := by
  have hds : ∀ c ∈ s, c.isDigit = true :=
    List.all_eq_true.mp ((Bool.and_eq_true _ _).mp hd).2
  apply clean_ticker_eq_self
  intro c hc
  rcases List.mem_append.mp hc with hcs | hcsuf
  · exact ⟨isDigit_not_ws c (hds c hcs), isDigit_toUpper c (hds c hcs)⟩
  · rcases hsuf with rfl | rfl <;> fin_cases hcsuf <;> exact ⟨by decide, by decide⟩

/-- A `.KS`/`.KQ`-suffixed 6-digit code takes the recursive branch and
fetches exactly what the bare code fetches. -/
theorem domestic_suffix_fetch (A : Adapters) (days : Nat) {s suf : List Char}
    (h6 : s.length = 6) (hd : pyIsDigit s = true)
    (hsuf : suf = ".KS".toList ∨ suf = ".KQ".toList) :
    rawFetch A (s ++ suf) days = rawFetch A s days := by
  have hds : ∀ c ∈ s, c.isDigit = true :=
    List.all_eq_true.mp ((Bool.and_eq_true _ _).mp hd).2
  have hlen3 : suf.length = 3 := by rcases hsuf with rfl | rfl <;> decide
  have hclean : clean_ticker (s ++ suf) = s ++ suf := clean_ticker_digit_suffix hd hsuf
  have hlen9 : (s ++ suf).length = 9 := by rw [List.length_append, h6, hlen3]
  have hdrop : (s ++ suf).drop 6 = suf := by
    rw [← h6]
    exact List.drop_left s suf
  have htw : (s ++ suf).takeWhile (fun c => c != '.') = s := by
    rcases hsuf with rfl | rfl <;>
      exact takeWhile_append_stop (fun c hc => digit_ne_dot (hds c hc)) (by decide)
  have h1 : ¬ (pyIsDigit (clean_ticker (s ++ suf)) &&
      (clean_ticker (s ++ suf)).length == 6) = true := by
    rw [hclean]
    intro hcond
    have h2' := ((Bool.and_eq_true _ _).mp hcond).2
    rw [hlen9] at h2'
    exact absurd h2' (by decide)
  have h2 : ¬ (clean_ticker (s ++ suf) == "KR10YT=RR".toList ||
      clean_ticker (s ++ suf) == "JP10YT=XX".toList ||
      clean_ticker (s ++ suf) == "FKS200".toList) = true := by
    rw [hclean]
    intro hcond
    rcases (Bool.or_eq_true _ _).mp hcond with hcond2 | he
    · rcases (Bool.or_eq_true _ _).mp hcond2 with he | he <;>
        (rw [beq_iff_eq] at he
         have hx := congrArg (fun l => List.drop 6 l) he
         simp only at hx
         rw [hdrop] at hx
         rcases hsuf with rfl | rfl <;> exact absurd hx (by decide))
    · rw [beq_iff_eq] at he
      have hx := congrArg List.length he
      rw [hlen9] at hx
      exact absurd hx (by decide)
  have h3 : ¬ (clean_ticker (s ++ suf) == "USD/KRW".toList ||
      clean_ticker (s ++ suf) == "JPY/KRW".toList) = true := by
    rw [hclean]
    intro hcond
    rcases (Bool.or_eq_true _ _).mp hcond with he | he <;>
      (rw [beq_iff_eq] at he
       have hx := congrArg List.length he
       rw [hlen9] at hx
       exact absurd hx (by decide))
  have h4 : ((endsWith (clean_ticker (s ++ suf)) (".KS".toList) ||
      endsWith (clean_ticker (s ++ suf)) (".KQ".toList)) &&
      pyIsDigit ((clean_ticker (s ++ suf)).takeWhile (fun c => c != '.'))) = true := by
    rw [hclean, Bool.and_eq_true]
    constructor
    · rcases hsuf with rfl | rfl
      · rw [Bool.or_eq_true]
        exact Or.inl (decide_eq_true ⟨s, rfl⟩)
      · rw [Bool.or_eq_true]
        exact Or.inr (decide_eq_true ⟨s, rfl⟩)
    · rw [htw]
      exact hd
  rw [rawFetch_eq_recurse A (s ++ suf) days h1 h2 h3 h4, hclean, htw]

/-- Claim C5: every 6-digit numeric identifier takes the domestic-equity
(local-exchange) branch, and the `.KS`/`.KQ`-suffixed identifier routes
identically to the bare code: the part before the first `.` is extracted and
re-classified recursively, so the fetched result is the same. -/
theorem domestic_equity_routing (A : Adapters) (days : Nat) (s : List Char)
    (h6 : s.length = 6) (hd : pyIsDigit s = true) :
    rawFetch A s days = (A.pykrx s (days + 100)).map
      (fun df => df.filter (fun b => decide (0 < b.openP))) ∧
    ∀ suf, (suf = ".KS".toList ∨ suf = ".KQ".toList) →
      get_stock_data A (s ++ suf) days = get_stock_data A s days := by
  have hclean := clean_ticker_digits hd
  constructor
  · rw [rawFetch_eq_pykrx A s days (by rw [hclean]; simp [hd, h6]), hclean]
  · intro suf hsuf
    unfold get_stock_data
    rw [domestic_suffix_fetch A days h6 hd hsuf]

/-- Witness for C5 at the Samsung code `005930`. -/
theorem domestic_equity_routing_witness :
    rawFetch fullAdapters ("005930".toList) 7 =
      (fullAdapters.pykrx ("005930".toList) (7 + 100)).map
        (fun df => df.filter (fun b => decide (0 < b.openP))) ∧
    get_stock_data fullAdapters ("005930".toList ++ ".KS".toList) 7 =
      get_stock_data fullAdapters ("005930".toList) 7 :=
  ⟨(domestic_equity_routing fullAdapters 7 ("005930".toList) (by decide) (by decide)).1,
   (domestic_equity_routing fullAdapters 7 ("005930".toList) (by decide) (by decide)).2
     (".KS".toList) (Or.inl rfl)⟩
